import Mathlib

set_option maxHeartbeats 1000000

/-!
Verification development for the DotX dot-plot renderer.

The WGSL shaders (`transform_utils.wgsl`, `tile_builder.wgsl`, `polyline.wgsl`,
`density_heatmap.wgsl`) and the React GUI (`App.tsx`, `PlotCanvas`, `MiniMap`)
are shallowly embedded here.  `f64`/`f32`/JS-number arithmetic is modelled as
exact rational arithmetic (`ℚ`); the lossy `f64 → f32` cast is modelled as an
abstract function `ℚ → ℚ` wherever the ordering of the cast matters.  Machine
integers (`u64`, `u32`, `i64`) are modelled as `ℕ`/`ℤ`; all values that occur
stay far below the wrap-around range.
-/

namespace DotX

/-- A two-component vector of high-precision (`f64`) values, modelled exactly. -/
structure Vec2 where
  x : ℚ
  y : ℚ
deriving DecidableEq, Repr


/-- Tile bounds `vec4<f64>`: `x = x_min`, `y = y_min`, `z = x_max`, `w = y_max`
in world coordinates (field names follow the WGSL component names). -/
structure TileBounds where
  x : ℚ
  y : ℚ
  z : ℚ
  w : ℚ
deriving DecidableEq, Repr


/-- Embedding of `tile_to_world` from `transform_utils.wgsl` (lines 15-25):
convert 16-bit normalized tile coordinates to world coordinates. -/
def tile_to_world (tile_pos : ℕ × ℕ) (tile_bounds : TileBounds) : Vec2 :=
  let normalized : Vec2 :=
    ⟨(tile_pos.1 : ℚ) / 65535, (tile_pos.2 : ℚ) / 65535⟩
  ⟨tile_bounds.x + normalized.x * (tile_bounds.z - tile_bounds.x),
   tile_bounds.y + normalized.y * (tile_bounds.w - tile_bounds.y)⟩


/-- Modelled from the spec: the `world → tileLocal` inverse transform is not in
the shader sources (only the forward `tile_to_world` is); §4.1 gives
`world = min + (tileLocal / 65535) * (max − min)`, whose inverse is
`tileLocal = (world − min) / (max − min) * 65535`, rounded to the nearest
16-bit integer. -/
def world_to_tile_local (world lo hi : ℚ) : ℤ :=
  round ((world - lo) / (hi - lo) * 65535)


/-- Embedding of `TransformUniforms` from `transform_utils.wgsl` (lines 4-12).
The `f32` matrices and viewport size are modelled over `ℚ` as well; the claims
about this structure concern where the lossy `f64 → f32` cast sits, which is
kept abstract (a parameter `cast : ℚ → ℚ`), not the rounding behaviour of the
low-precision stage itself. -/
structure TransformUniforms where
  view_matrix : Matrix (Fin 4) (Fin 4) ℚ
  projection_matrix : Matrix (Fin 4) (Fin 4) ℚ
  tile_offset : Vec2
  tile_scale : Vec2
  viewport_size : Vec2
  zoom_level : ℚ


/-- Embedding of `world_to_screen` from `transform_utils.wgsl` (lines 28-48).
`cast` models the `f32(...)` conversion applied when building `clip_pos`;
everything before that point is `f64` (exact here), everything after is the
low-precision projection. -/
def world_to_screen (cast : ℚ → ℚ) (world_pos : Vec2) (transform : TransformUniforms) : Vec2 :=
  let relative_pos : Vec2 :=
    ⟨(world_pos.x - transform.tile_offset.x) * transform.tile_scale.x,
     (world_pos.y - transform.tile_offset.y) * transform.tile_scale.y⟩
  let clip_pos : Fin 4 → ℚ := ![cast relative_pos.x, cast relative_pos.y, 0, 1]
  let projected := (transform.projection_matrix * transform.view_matrix).mulVec clip_pos
  ⟨(projected 0 / projected 3 + 1) * 0.5 * transform.viewport_size.x,
   (1 - projected 1 / projected 3) * 0.5 * transform.viewport_size.y⟩


/-- The low-precision tail of `world_to_screen`: build the clip-space vector
from two already-cast components and apply the view/projection matrices and
the viewport mapping.  Used to state that `world_to_screen` factors as
high-precision subtraction, then cast, then this function. -/
def lowPrecisionProject (transform : TransformUniforms) (cx cy : ℚ) : Vec2 :=
  let projected := (transform.projection_matrix * transform.view_matrix).mulVec ![cx, cy, 0, 1]
  ⟨(projected 0 / projected 3 + 1) * 0.5 * transform.viewport_size.x,
   (1 - projected 1 / projected 3) * 0.5 * transform.viewport_size.y⟩


/-- Embedding of `transform_instance_position` from `transform_utils.wgsl`
(lines 51-65). -/
def transform_instance_position (cast : ℚ → ℚ) (tile_pos : ℕ × ℕ) (tile_bounds : TileBounds)
    (transform : TransformUniforms) : Fin 4 → ℚ :=
  let world_pos := tile_to_world tile_pos tile_bounds
  let relative_pos : Vec2 :=
    ⟨(world_pos.x - transform.tile_offset.x) * transform.tile_scale.x,
     (world_pos.y - transform.tile_offset.y) * transform.tile_scale.y⟩
  (transform.projection_matrix * transform.view_matrix).mulVec
    ![cast relative_pos.x, cast relative_pos.y, 0, 1]


/-- Translate the viewport offset of a `TransformUniforms` by `d`. -/
def shiftTransform (transform : TransformUniforms) (d : Vec2) : TransformUniforms :=
  { transform with tile_offset := ⟨transform.tile_offset.x + d.x, transform.tile_offset.y + d.y⟩ }


/-- Translate tile bounds by `d` (both min and max corners). -/
def shiftBounds (b : TileBounds) (d : Vec2) : TileBounds :=
  ⟨b.x + d.x, b.y + d.y, b.z + d.x, b.w + d.y⟩


/-! Tile pyramid builder: embedding of the compute shader `tile_builder.wgsl`.
The shader bins each PAF record into the finest-level grid by Bresenham-style
stepping; the per-thread accumulation into `local_bins` is modelled as a
sequential fold of the visited bin indices for one record (the claims are
per-anchor). -/


/-- Embedding of `PafRecord` from `tile_builder.wgsl` (lines 2-11); the unused
`padding` field is dropped. -/
structure PafRecord where
  query_start : ℕ
  query_end : ℕ
  target_start : ℕ
  target_end : ℕ
  strand : ℕ
  identity : ℕ
  alignment_len : ℕ
deriving DecidableEq, Repr


/-- `bin_size` from `tile_builder.wgsl` line 59. -/
def bin_size : ℕ := 1024


/-- `tile_size` from `tile_builder.wgsl` line 60. -/
def tile_size : ℕ := 512


def ref_bin_start (r : PafRecord) : ℕ := r.target_start / bin_size


def ref_bin_end (r : PafRecord) : ℕ := r.target_end / bin_size


def qry_bin_start (r : PafRecord) : ℕ := r.query_start / bin_size


def qry_bin_end (r : PafRecord) : ℕ := r.query_end / bin_size


/-- `ref_len = i64(ref_bin_end) - i64(ref_bin_start)` (line 68). -/
def ref_len (r : PafRecord) : ℤ := (ref_bin_end r : ℤ) - (ref_bin_start r : ℤ)


/-- `qry_len = i64(qry_bin_end) - i64(qry_bin_start)` (line 69). -/
def qry_len (r : PafRecord) : ℤ := (qry_bin_end r : ℤ) - (qry_bin_start r : ℤ)


/-- `steps = max(abs(ref_len), abs(qry_len))` (line 70). -/
def steps (r : PafRecord) : ℕ := max (ref_len r).natAbs (qry_len r).natAbs


/-- WGSL `u64(x)` conversion of an `f64` value: truncation, clamped at 0 for
negative inputs.  On every rational it agrees with `⌊x⌋.toNat` (for `x ≥ 0`
truncation is the floor; for `x < 0` both give 0). -/
def toU64 (x : ℚ) : ℕ := (Int.floor x).toNat


/-- `ref_bin = u64(f64(ref_bin_start) + f64(ref_len) * t)` with
`t = f64(i) / f64(steps)` (lines 78-79). -/
def ref_bin_at (r : PafRecord) (i : ℕ) : ℕ :=
  toU64 ((ref_bin_start r : ℚ) + (ref_len r : ℚ) * ((i : ℚ) / (steps r : ℚ)))


/-- `qry_bin = u64(f64(qry_bin_start) + f64(qry_len) * t)` (line 80). -/
def qry_bin_at (r : PafRecord) (i : ℕ) : ℕ :=
  toU64 ((qry_bin_start r : ℚ) + (qry_len r : ℚ) * ((i : ℚ) / (steps r : ℚ)))


/-- `local_bin_idx = bin_y * tile_size + bin_x` with
`bin_x = ref_bin % tile_size`, `bin_y = qry_bin % tile_size` (lines 87-91). -/
def local_idx_at (r : PafRecord) (i : ℕ) : ℕ :=
  (qry_bin_at r i % tile_size) * tile_size + (ref_bin_at r i % tile_size)


/-- The local bin indices visited by the stepping loop (lines 72-102): the
early `return` on `steps == 0` yields no visits; otherwise `i` runs from `0`
to `steps` inclusive. -/
def visits (r : PafRecord) : List ℕ :=
  if steps r = 0 then [] else (List.range (steps r + 1)).map (local_idx_at r)


/-- Embedding of `BinData` (lines 30-35); the atomics are modelled as plain
accumulators updated sequentially. -/
structure BinData where
  count : ℕ
  sum_len : ℕ
  sum_identity : ℕ
  strand_balance : ℤ
deriving DecidableEq, Repr


/-- `strand_delta = select(-1, 1, record.strand == 1u)` (line 99). -/
def strand_delta (r : PafRecord) : ℤ := if r.strand = 1 then 1 else -1


abbrev Grid := ℕ → BinData


def emptyGrid : Grid := fun _ => ⟨0, 0, 0, 0⟩


/-- One loop-body accumulation (lines 93-101): guarded by
`local_bin_idx < 262144u`, add 1 to `count`, `alignment_len` to `sum_len`,
`identity` to `sum_identity` and `strand_delta` to `strand_balance`. -/
def bump (r : PafRecord) (g : Grid) (idx : ℕ) : Grid :=
  if idx < 262144 then
    fun j =>
      if j = idx then
        ⟨(g j).count + 1, (g j).sum_len + r.alignment_len,
         (g j).sum_identity + r.identity, (g j).strand_balance + strand_delta r⟩
      else g j
  else g


/-- Accumulate one PAF record into the grid: fold of the loop body over the
visited bin indices. -/
def applyRecord (r : PafRecord) (g : Grid) : Grid := (visits r).foldl (bump r) g


/-- A record whose target and query spans both collapse into a single
finest-level bin (bins `100 / 1024 = 0`). -/
def degenerateRecord : PafRecord := ⟨0, 100, 0, 100, 1, 80, 100⟩


/-- A record spanning 5 target bins and 3 query bins at `bin_size = 1024`. -/
def spanningRecord : PafRecord := ⟨0, 2048, 0, 4096, 1, 80, 100⟩


/-! Tile pyramid levels.  The bottom-up derivation of coarser levels is in the
Rust core, which is not among the provided sources; the compute shader only
bins the finest level.  The parent/child structure is therefore modelled from
the spec (§4.3, §3, §9): parents sum their four children, coordinates are
related by bit shifts (doubling), and each level halves the tile's world-space
extent. -/


/-- Modelled from the spec: the count of tile `(level, x, y)` in a pyramid
whose finest level is `finest` and whose finest-level bin counts are given by
`leaf`.  §4.3: "each parent bin's `count` is the sum of its four children's
counts"; children of `(l, x, y)` are `(l+1, 2x(+1), 2y(+1))` (§9: parent/child
relationships computed by coordinate bit-shifts). -/
def tileCount (leaf : ℕ → ℕ → ℕ) (finest l x y : ℕ) : ℕ :=
  if l < finest then
    tileCount leaf finest (l + 1) (2 * x) (2 * y)
      + tileCount leaf finest (l + 1) (2 * x + 1) (2 * y)
      + tileCount leaf finest (l + 1) (2 * x) (2 * y + 1)
      + tileCount leaf finest (l + 1) (2 * x + 1) (2 * y + 1)
  else leaf x y
termination_by finest - l
decreasing_by all_goals omega


/-- Modelled from the spec: the half-open world-space rectangle of tile
`(level, x, y)` when the whole axis has extent `W` and level `l` splits it
into `2^l` tiles per axis (level 0 is the coarsest, whole-extent tile). -/
def tileRect (W : ℚ) (l x y : ℕ) : Set (ℚ × ℚ) :=
  {p | (x : ℚ) * (W / 2 ^ l) ≤ p.1 ∧ p.1 < ((x : ℚ) + 1) * (W / 2 ^ l) ∧
       (y : ℚ) * (W / 2 ^ l) ≤ p.2 ∧ p.2 < ((y : ℚ) + 1) * (W / 2 ^ l)}


/-! LOD tier selection.  The LOD Selector (§4.4) lives in the Rust core, which
is not among the provided sources; `transform_utils.wgsl` only computes a
per-fragment fade factor.  The tier selector is therefore modelled from the
spec: three states, zoom-threshold driven, a pure function of the current
zoom and the configured pixel-density budget. -/


/-- The three rendering tiers of §4.4. -/
inductive Tier where
  | overview
  | mid
  | deep
deriving DecidableEq, Repr


/-- Modelled from the spec: the configured pixel-density budget together with
the two zoom thresholds it determines (the spec gives no closed-form formula
for the thresholds, only that selection is zoom-threshold driven). -/
structure LodConfig where
  pixelDensityBudget : ℚ
  midThreshold : ℚ
  deepThreshold : ℚ
deriving DecidableEq, Repr


/-- A render-data request's viewport: world-space rectangle and pixel size. -/
structure RenderViewport where
  x : ℚ
  y : ℚ
  width : ℚ
  height : ℚ
deriving DecidableEq, Repr


/-- Modelled from the spec: zoom-threshold driven three-state tier
selection (§4.4). -/
def selectTier (cfg : LodConfig) (zoom : ℚ) : Tier :=
  if zoom < cfg.midThreshold then Tier.overview
  else if zoom < cfg.deepThreshold then Tier.mid
  else Tier.deep


/-- Modelled from the spec: `prepareRenderData`'s tier decision for one
request; stateless, carrying no information between calls. -/
def prepareRenderTier (cfg : LodConfig) (vp : RenderViewport) (zoom : ℚ) : Tier :=
  selectTier cfg zoom


def lodConfig0 : LodConfig := ⟨1, 1, 4⟩


def renderViewport0 : RenderViewport := ⟨0, 0, 800, 600⟩


/-! Point-instance colors and strand filtering, from the instanced points
shader (second shader in `density_heatmap.wgsl`) and `polyline.wgsl`. -/


/-- RGBA color `vec4<f32>`, modelled exactly. -/
structure Vec4 where
  r : ℚ
  g : ℚ
  b : ℚ
  a : ℚ
deriving DecidableEq, Repr


/-- Embedding of `strand_to_color` from `transform_utils.wgsl` (lines 99-114). -/
def strand_to_color (strand : ℤ) : Vec4 :=
  if strand = 1 then ⟨0.16, 0.44, 0.94, 1.0⟩
  else if strand = -1 then ⟨0.90, 0.22, 0.21, 1.0⟩
  else ⟨0.5, 0.5, 0.5, 1.0⟩


/-- WGSL `clamp(e, lo, hi) = min(max(e, lo), hi)`. -/
def clampQ (e lo hi : ℚ) : ℚ := min (max e lo) hi


/-- WGSL `mix(e1, e2, t) = e1 * (1 - t) + e2 * t`. -/
def mixQ (e1 e2 t : ℚ) : ℚ := e1 * (1 - t) + e2 * t


/-- Embedding of the color computation of the point-instance vertex shader
(`vs_main` of the instanced points shader, lines 149-160 of the source):
strand base color, RGB mixed from gray toward the base color by the clamped
identity, RGB scaled by the mapq brightness; alpha is taken unchanged from
the strand color. -/
def point_vs_color (strand : ℤ) (identity : ℚ) (mapq : ℕ) : Vec4 :=
  let base_color := strand_to_color strand
  let identity_factor := clampQ identity 0 1
  let quality_brightness := 0.8 + 0.2 * ((mapq : ℚ) / 255)
  ⟨mixQ 0.5 base_color.r identity_factor * quality_brightness,
   mixQ 0.5 base_color.g identity_factor * quality_brightness,
   mixQ 0.5 base_color.b identity_factor * quality_brightness,
   base_color.a⟩


/-- Embedding of the strand-filtering discards of `fs_main` in
`polyline.wgsl` (lines 59-65): both guards test `color.r > 0.7`. -/
def polyline_fs_discard (color : Vec4) (show_forward show_reverse : ℕ) : Bool :=
  if color.r > 0.7 ∧ show_forward = 0 then true
  else if color.r > 0.7 ∧ show_reverse = 0 then true
  else false


/-- Embedding of the strand-filtering discards of `fs_main` in the instanced
points shader (lines 175-182 of the source): `is_forward = color.b < 0.5`. -/
def points_fs_discard (color : Vec4) (show_forward show_reverse : ℕ) : Bool :=
  let is_forward := color.b < 0.5
  if is_forward ∧ show_forward = 0 then true
  else if ¬ is_forward ∧ show_reverse = 0 then true
  else false


/-! GUI application state, from `dotx-gui/src/App.tsx`, `PlotCanvas` and
`MiniMap`.  JS numbers are modelled as exact rationals. -/


inductive Theme where
  | light
  | dark
deriving DecidableEq, Repr


inductive StrandFilter where
  | both
  | forward
  | reverse
deriving DecidableEq, Repr


/-- `ViewPort` from `dotx-gui/src/types/index.ts`. -/
structure ViewPort where
  x : ℚ
  y : ℚ
  zoom : ℚ
  width : ℚ
  height : ℚ
deriving DecidableEq, Repr


/-- `PlotConfig` from `dotx-gui/src/types/index.ts`. -/
structure PlotConfig where
  showForwardStrand : Bool
  showReverseStrand : Bool
  swapAxes : Bool
  reverseComplementY : Bool
  theme : Theme
  strandFilter : StrandFilter
deriving DecidableEq, Repr


/-- `PlotStats` from `dotx-gui/src/types/index.ts` (`verificationStatus` kept
as its literal string). -/
structure PlotStats where
  anchorCount : ℕ
  fps : ℚ
  visibleAnchors : ℕ
  verificationStatus : String
deriving DecidableEq, Repr


/-- `AppState` from `App.tsx` (lines 13-20). -/
structure AppState where
  plotConfig : PlotConfig
  viewport : ViewPort
  plotStats : PlotStats
  isLoading : Bool
  error : Option String
  showMiniMap : Bool
deriving DecidableEq, Repr


/-- The initial state from `App.tsx` (lines 23-48). -/
def initialState : AppState :=
  { plotConfig := ⟨true, true, false, false, Theme.dark, StrandFilter.both⟩,
    viewport := ⟨0, 0, 1, 1200, 800⟩,
    plotStats := ⟨0, 0, 0, "none"⟩,
    isLoading := false,
    error := none,
    showMiniMap := true }


/-- `handleZoom` from `App.tsx` (lines 163-171): multiply the zoom by the
factor and clamp into `[0.01, 100]`. -/
def handleZoom (factor : ℚ) (s : AppState) : AppState :=
  { s with viewport :=
      { s.viewport with zoom := max 0.01 (min 100 (s.viewport.zoom * factor)) } }


/-- `handlePan` from `App.tsx` (lines 173-182). -/
def handlePan (deltaX deltaY : ℚ) (s : AppState) : AppState :=
  { s with viewport :=
      { s.viewport with
        x := s.viewport.x + deltaX / s.viewport.zoom,
        y := s.viewport.y + deltaY / s.viewport.zoom } }


/-- `handleSwapAxes` from `App.tsx` (lines 184-192). -/
def handleSwapAxes (s : AppState) : AppState :=
  { s with plotConfig := { s.plotConfig with swapAxes := !s.plotConfig.swapAxes } }


/-- `handleReverseComplementY` from `App.tsx` (lines 194-202). -/
def handleReverseComplementY (s : AppState) : AppState :=
  { s with plotConfig :=
      { s.plotConfig with reverseComplementY := !s.plotConfig.reverseComplementY } }


/-- `handleStrandFilter` from `App.tsx` (lines 204-214). -/
def handleStrandFilter (f : StrandFilter) (s : AppState) : AppState :=
  { s with plotConfig :=
      { s.plotConfig with
        strandFilter := f,
        showForwardStrand := decide (f = StrandFilter.both ∨ f = StrandFilter.forward),
        showReverseStrand := decide (f = StrandFilter.both ∨ f = StrandFilter.reverse) } }


/-- `handleResetView` from `App.tsx` (lines 216-226): reset only `x`, `y` and
`zoom` of the viewport, keep everything else. -/
def handleResetView (s : AppState) : AppState :=
  { s with viewport := { s.viewport with x := 0, y := 0, zoom := 1 } }


/-- `handleThemeChange` from `App.tsx` (lines 228-239), state part. -/
def handleThemeChange (t : Theme) (s : AppState) : AppState :=
  { s with plotConfig := { s.plotConfig with theme := t } }


/-- `handleViewportChange` from `App.tsx` (lines 241-249): merge a partial
viewport into the current one. -/
def handleViewportChange (px py pz pw ph : Option ℚ) (s : AppState) : AppState :=
  { s with viewport :=
      ⟨px.getD s.viewport.x, py.getD s.viewport.y, pz.getD s.viewport.zoom,
       pw.getD s.viewport.width, ph.getD s.viewport.height⟩ }


/-- `handleWheel` from `PlotCanvas` (lines 347-353): choose the factor from
the wheel direction, clamp into `[0.01, 100]`, and submit only the zoom
through the viewport-change callback. -/
def handleWheel (deltaY : ℚ) (s : AppState) : AppState :=
  let zoomFactor : ℚ := if deltaY > 0 then 0.9 else 1.1
  let newZoom := max 0.01 (min 100 (s.viewport.zoom * zoomFactor))
  handleViewportChange none none (some newZoom) none none s


/-- Mouse-drag panning from `PlotCanvas` (lines 305-314): submits new `x`, `y`
through the viewport-change callback. -/
def handleDrag (deltaX deltaY : ℚ) (s : AppState) : AppState :=
  handleViewportChange (some (s.viewport.x - deltaX / s.viewport.zoom))
    (some (s.viewport.y - deltaY / s.viewport.zoom)) none none none s


/-- The UI events that update the application state, each dispatching to the
handler its call site invokes.  `resize` covers the `ResizeObserver` callback
of `PlotCanvas` (width/height only); `minimapJump` covers the `MiniMap` click
(x/y only); `statsUpdate` and `loadingSet` cover the stats-polling and
open/export effects, none of which touch the zoom. -/
inductive Event where
  | zoomKey (factor : ℚ)
  | wheel (deltaY : ℚ)
  | pan (dx dy : ℚ)
  | drag (dx dy : ℚ)
  | resize (w h : ℚ)
  | minimapJump (relX relY : ℚ)
  | swap
  | reverseY
  | strandFilterSet (f : StrandFilter)
  | resetView
  | themeSet (t : Theme)
  | statsUpdate (st : PlotStats)
  | loadingSet (b : Bool) (e : Option String)


/-- One step of the application state machine. -/
def step (s : AppState) : Event → AppState
  | Event.zoomKey f => handleZoom f s
  | Event.wheel d => handleWheel d s
  | Event.pan dx dy => handlePan dx dy s
  | Event.drag dx dy => handleDrag dx dy s
  | Event.resize w h => handleViewportChange none none none (some w) (some h) s
  | Event.minimapJump rx ry =>
      handleViewportChange (some ((rx - 0.5) * 1000)) (some ((ry - 0.5) * 1000)) none none none s
  | Event.swap => handleSwapAxes s
  | Event.reverseY => handleReverseComplementY s
  | Event.strandFilterSet f => handleStrandFilter f s
  | Event.resetView => handleResetView s
  | Event.themeSet t => handleThemeChange t s
  | Event.statsUpdate st => { s with plotStats := st }
  | Event.loadingSet b e => { s with isLoading := b, error := e }


/-- The states reachable from the initial state by UI events. -/
inductive Reachable : AppState → Prop where
  | init : Reachable initialState
  | next : ∀ {s : AppState} (e : Event), Reachable s → Reachable (step s e)


/-! Lemmas and claim theorems. -/

/-- C1: for tile bounds spanning up to `10^11` world units and any 16-bit
tile-local coordinate `v ∈ [0, 65535]`, `tile_to_world` computes
`world = min + (v / 65535) * (max − min)` in high precision, and
round-tripping `v` through `tileLocal → world → tileLocal` reproduces `v`
exactly. -/
theorem claim_C1 (v : ℕ) (hv : v ≤ 65535) (lo hi : ℚ) (hlt : lo < hi)
    (hspan : hi - lo ≤ 10 ^ 11) :
    (tile_to_world (v, v) ⟨lo, lo, hi, hi⟩).x = lo + ((v : ℚ) / 65535) * (hi - lo) ∧
    world_to_tile_local ((tile_to_world (v, v) ⟨lo, lo, hi, hi⟩).x) lo hi = v := by
  have hne : hi - lo ≠ 0 := sub_ne_zero.mpr hlt.ne'
  constructor
  · rfl
  · have hx : (tile_to_world (v, v) ⟨lo, lo, hi, hi⟩).x
        = lo + ((v : ℚ) / 65535) * (hi - lo) := rfl
    rw [hx]
    unfold world_to_tile_local
    have harg : (lo + (v : ℚ) / 65535 * (hi - lo) - lo) / (hi - lo) * 65535 = (v : ℚ) := by
      field_simp
      ring
    rw [harg, round_natCast]


/-- Witness for C1 at `v = 12345` over bounds `[0, 10^11]`. -/
theorem claim_C1_witness :
    (12345 : ℕ) ≤ 65535 ∧ (0 : ℚ) < 10 ^ 11 ∧ ((10 : ℚ) ^ 11 - 0 ≤ 10 ^ 11) ∧
    ((tile_to_world (12345, 12345) ⟨0, 0, 10 ^ 11, 10 ^ 11⟩).x
        = 0 + ((12345 : ℚ) / 65535) * (10 ^ 11 - 0) ∧
      world_to_tile_local ((tile_to_world (12345, 12345) ⟨0, 0, 10 ^ 11, 10 ^ 11⟩).x)
        0 (10 ^ 11) = 12345) :=
  ⟨by norm_num, by norm_num, by norm_num,
    claim_C1 12345 (by norm_num) 0 (10 ^ 11) (by norm_num) (by norm_num)⟩


lemma tile_to_world_shift (tp : ℕ × ℕ) (b : TileBounds) (d : Vec2) :
    tile_to_world tp (shiftBounds b d)
      = ⟨(tile_to_world tp b).x + d.x, (tile_to_world tp b).y + d.y⟩ := by
  simp only [tile_to_world, shiftBounds, Vec2.mk.injEq]
  constructor <;> ring


/-- C2: the world-to-screen transform subtracts the high-precision viewport
offset from the world position first and only then applies the (lossy) cast
and the low-precision projection.  Conjunct 1: `world_to_screen` factors
through `lowPrecisionProject`, with the cast applied exactly to the
offset-subtracted, scaled coordinates.  Conjuncts 2 and 3: the output depends
on the world position only through `world − tile_offset` — translating the
world position and the viewport offset together leaves the screen output
unchanged for an arbitrary (hence arbitrarily lossy) cast, which would fail if
the matrix were applied to raw world coordinates before the subtraction. -/
theorem claim_C2 (cast : ℚ → ℚ) (w d : Vec2) (tp : ℕ × ℕ) (b : TileBounds)
    (t : TransformUniforms) :
    world_to_screen cast w t
        = lowPrecisionProject t (cast ((w.x - t.tile_offset.x) * t.tile_scale.x))
            (cast ((w.y - t.tile_offset.y) * t.tile_scale.y)) ∧
    world_to_screen cast ⟨w.x + d.x, w.y + d.y⟩ (shiftTransform t d) = world_to_screen cast w t ∧
    transform_instance_position cast tp (shiftBounds b d) (shiftTransform t d)
        = transform_instance_position cast tp b t := by
  have h1 : w.x + d.x - (t.tile_offset.x + d.x) = w.x - t.tile_offset.x := by ring
  have h2 : w.y + d.y - (t.tile_offset.y + d.y) = w.y - t.tile_offset.y := by ring
  refine ⟨rfl, ?_, ?_⟩
  · simp only [world_to_screen, shiftTransform, h1, h2]
  · simp only [transform_instance_position, shiftTransform, tile_to_world_shift]
    simp only [add_sub_add_right_eq_sub]


lemma local_idx_at_lt (r : PafRecord) (i : ℕ) : local_idx_at r i < 262144 := by
  unfold local_idx_at tile_size
  have h1 : qry_bin_at r i % 512 < 512 := Nat.mod_lt _ (by norm_num)
  have h2 : ref_bin_at r i % 512 < 512 := Nat.mod_lt _ (by norm_num)
  omega


lemma bump_self (r : PafRecord) (g : Grid) (idx : ℕ) (h : idx < 262144) :
    bump r g idx idx =
      ⟨(g idx).count + 1, (g idx).sum_len + r.alignment_len,
       (g idx).sum_identity + r.identity, (g idx).strand_balance + strand_delta r⟩ := by
  simp [bump, h]


lemma bump_other (r : PafRecord) (g : Grid) (idx j : ℕ) (h : idx < 262144) (hj : j ≠ idx) :
    bump r g idx j = g j := by
  simp [bump, h, hj]


lemma foldl_bump_apply (r : PafRecord) (l : List ℕ) (hl : ∀ idx ∈ l, idx < 262144)
    (g : Grid) (j : ℕ) :
    (l.foldl (bump r) g) j =
      ⟨(g j).count + l.count j, (g j).sum_len + l.count j * r.alignment_len,
       (g j).sum_identity + l.count j * r.identity,
       (g j).strand_balance + l.count j * strand_delta r⟩ := by
  induction l generalizing g with
  | nil => simp
  | cons a l ih =>
    have ha : a < 262144 := hl a (List.mem_cons_self a l)
    have htail : ∀ idx ∈ l, idx < 262144 := fun idx h => hl idx (List.mem_cons_of_mem a h)
    rw [List.foldl_cons, ih htail]
    by_cases hj : j = a
    · subst hj
      rw [bump_self r g j ha, List.count_cons_self]
      simp only [BinData.mk.injEq]
      refine ⟨by omega, ?_, ?_, ?_⟩
      · push_cast
        ring
      · push_cast
        ring
      · push_cast
        ring
    · rw [bump_other r g a j ha hj]
      have hcnt : (a :: l).count j = l.count j := by
        simp [List.count_cons, hj]
      rw [hcnt]


lemma interp_hits (a L s k : ℕ) (hLs : L ≤ s) (hs : 1 ≤ s) (hk : k ≤ L) :
    ∃ i ≤ s, toU64 ((a : ℚ) + (L : ℚ) * ((i : ℚ) / (s : ℚ))) = a + k := by
  rcases Nat.eq_zero_or_pos L with hL0 | hLpos
  · refine ⟨0, Nat.zero_le s, ?_⟩
    have hk0 : k = 0 := by omega
    subst hk0
    subst hL0
    simp [toU64]
  · have hs' : (0 : ℚ) < (s : ℚ) := by exact_mod_cast hs
    have hL' : (0 : ℚ) < (L : ℚ) := by exact_mod_cast hLpos
    refine ⟨⌈(k : ℚ) * (s : ℚ) / (L : ℚ)⌉₊, ?_, ?_⟩
    · rw [Nat.ceil_le, div_le_iff hL']
      have hkL : (k : ℚ) ≤ (L : ℚ) := by exact_mod_cast hk
      nlinarith
    · set i : ℕ := ⌈(k : ℚ) * (s : ℚ) / (L : ℚ)⌉₊ with hidef
      have hlow : (k : ℚ) * (s : ℚ) ≤ (L : ℚ) * (i : ℚ) := by
        have h1 : (k : ℚ) * (s : ℚ) / (L : ℚ) ≤ (i : ℚ) := Nat.le_ceil _
        rw [div_le_iff hL'] at h1
        linarith
      have hhigh : (L : ℚ) * (i : ℚ) < (k : ℚ) * (s : ℚ) + (L : ℚ) := by
        have h2 : (i : ℚ) < (k : ℚ) * (s : ℚ) / (L : ℚ) + 1 :=
          Nat.ceil_lt_add_one (by positivity)
        have h3 : (L : ℚ) * (i : ℚ) < (L : ℚ) * ((k : ℚ) * (s : ℚ) / (L : ℚ) + 1) := by
          exact mul_lt_mul_of_pos_left h2 hL'
        have h4 : (L : ℚ) * ((k : ℚ) * (s : ℚ) / (L : ℚ) + 1) = (k : ℚ) * (s : ℚ) + (L : ℚ) := by
          field_simp
        linarith
      have hLles : (L : ℚ) ≤ (s : ℚ) := by exact_mod_cast hLs
      have hfl : ⌊(a : ℚ) + (L : ℚ) * ((i : ℚ) / (s : ℚ))⌋ = (a : ℤ) + (k : ℤ) := by
        rw [Int.floor_eq_iff]
        constructor
        · push_cast
          have hkle : (k : ℚ) ≤ (L : ℚ) * ((i : ℚ) / (s : ℚ)) := by
            rw [← mul_div_assoc, le_div_iff hs']
            linarith
          linarith
        · push_cast
          have hklt : (L : ℚ) * ((i : ℚ) / (s : ℚ)) < (k : ℚ) + 1 := by
            rw [← mul_div_assoc, div_lt_iff hs']
            nlinarith
          linarith
      unfold toU64
      rw [hfl]
      omega


lemma axis_coverage (bstart bend s k : ℕ) (hbin : bstart ≤ bend) (hLs : bend - bstart ≤ s)
    (hs : 1 ≤ s) (hk1 : bstart ≤ k) (hk2 : k ≤ bend) :
    ∃ i ≤ s,
      toU64 ((bstart : ℚ) + ((((bend : ℤ) - (bstart : ℤ)) : ℤ) : ℚ) * ((i : ℚ) / (s : ℚ))) = k := by
  have hcast : ((((bend : ℤ) - (bstart : ℤ)) : ℤ) : ℚ) = ((bend - bstart : ℕ) : ℚ) := by
    push_cast [hbin]
    ring
  obtain ⟨i, hi, hv⟩ := interp_hits bstart (bend - bstart) s (k - bstart) hLs hs (by omega)
  refine ⟨i, hi, ?_⟩
  rw [hcast, hv]
  omega


/-- C3 (evidence of the code bug): an anchor whose (target, query) span
collapses to a single finest-level bin hits the early `return` on
`steps == 0` (`tile_builder.wgsl` lines 72-74) and is dropped: it contributes
zero increments, not the one increment the claim requires.  Division by zero
is indeed avoided, but only by discarding the anchor. -/
theorem claim_C3 :
    steps degenerateRecord = 0 ∧ visits degenerateRecord = [] ∧
    applyRecord degenerateRecord emptyGrid = emptyGrid ∧
    (applyRecord degenerateRecord emptyGrid (local_idx_at degenerateRecord 0)).count = 0 := by
  have hv : visits degenerateRecord = [] := by decide
  have happ : applyRecord degenerateRecord emptyGrid = emptyGrid := by
    unfold applyRecord
    rw [hv]
    rfl
  exact ⟨by decide, hv, happ, by rw [happ]; rfl⟩


/-- C5: for an anchor spanning more than one bin, the stepping loop of
`tile_builder.wgsl` (lines 77-102) performs `steps + 1` accumulations where
`steps = max(ref span, qry span)` in bins (proportional to the anchor's span);
every visited bin receives exactly one `count` increment, `alignment_len`
added to the running length sum, `identity` added to the identity sum, and
`±1` on the strand accumulator according to the anchor's strand, per visit;
and the traversal covers every target-bin column and every query-bin row that
the anchor's interval pair spans. -/
theorem claim_C5 (r : PafRecord) (ht : r.target_start ≤ r.target_end)
    (hq : r.query_start ≤ r.query_end) (hs : 1 ≤ steps r) :
    steps r = max (ref_bin_end r - ref_bin_start r) (qry_bin_end r - qry_bin_start r) ∧
    (visits r).length = steps r + 1 ∧
    (∀ g : Grid, ∀ j : ℕ,
        applyRecord r g j =
          ⟨(g j).count + (visits r).count j,
           (g j).sum_len + (visits r).count j * r.alignment_len,
           (g j).sum_identity + (visits r).count j * r.identity,
           (g j).strand_balance + (visits r).count j * strand_delta r⟩) ∧
    (∀ k, ref_bin_start r ≤ k → k ≤ ref_bin_end r → ∃ i ≤ steps r, ref_bin_at r i = k) ∧
    (∀ k, qry_bin_start r ≤ k → k ≤ qry_bin_end r → ∃ i ≤ steps r, qry_bin_at r i = k) := by
  have hrb : ref_bin_start r ≤ ref_bin_end r := Nat.div_le_div_right ht
  have hqb : qry_bin_start r ≤ qry_bin_end r := Nat.div_le_div_right hq
  have hrabs : (ref_len r).natAbs = ref_bin_end r - ref_bin_start r := by
    unfold ref_len
    omega
  have hqabs : (qry_len r).natAbs = qry_bin_end r - qry_bin_start r := by
    unfold qry_len
    omega
  have hsteps : steps r
      = max (ref_bin_end r - ref_bin_start r) (qry_bin_end r - qry_bin_start r) := by
    unfold steps
    rw [hrabs, hqabs]
  refine ⟨hsteps, ?_, ?_, ?_, ?_⟩
  · unfold visits
    rw [if_neg (by omega)]
    simp
  · intro g j
    have hl : ∀ idx ∈ visits r, idx < 262144 := by
      intro idx hidx
      unfold visits at hidx
      rw [if_neg (by omega)] at hidx
      obtain ⟨i, -, rfl⟩ := List.mem_map.mp hidx
      exact local_idx_at_lt r i
    exact foldl_bump_apply r (visits r) hl g j
  · intro k hk1 hk2
    obtain ⟨i, hi, hv⟩ :=
      axis_coverage (ref_bin_start r) (ref_bin_end r) (steps r) k hrb (by omega) hs hk1 hk2
    refine ⟨i, hi, ?_⟩
    unfold ref_bin_at ref_len
    exact hv
  · intro k hk1 hk2
    obtain ⟨i, hi, hv⟩ :=
      axis_coverage (qry_bin_start r) (qry_bin_end r) (steps r) k hqb (by omega) hs hk1 hk2
    refine ⟨i, hi, ?_⟩
    unfold qry_bin_at qry_len
    exact hv


/-- Witness for C5 at a concrete multi-bin record. -/
theorem claim_C5_witness :
    spanningRecord.target_start ≤ spanningRecord.target_end ∧
    spanningRecord.query_start ≤ spanningRecord.query_end ∧
    1 ≤ steps spanningRecord ∧
    (steps spanningRecord
        = max (ref_bin_end spanningRecord - ref_bin_start spanningRecord)
            (qry_bin_end spanningRecord - qry_bin_start spanningRecord) ∧
      (visits spanningRecord).length = steps spanningRecord + 1 ∧
      (∀ g : Grid, ∀ j : ℕ,
          applyRecord spanningRecord g j =
            ⟨(g j).count + (visits spanningRecord).count j,
             (g j).sum_len + (visits spanningRecord).count j * spanningRecord.alignment_len,
             (g j).sum_identity + (visits spanningRecord).count j * spanningRecord.identity,
             (g j).strand_balance
               + (visits spanningRecord).count j * strand_delta spanningRecord⟩) ∧
      (∀ k, ref_bin_start spanningRecord ≤ k → k ≤ ref_bin_end spanningRecord →
          ∃ i ≤ steps spanningRecord, ref_bin_at spanningRecord i = k) ∧
      (∀ k, qry_bin_start spanningRecord ≤ k → k ≤ qry_bin_end spanningRecord →
          ∃ i ≤ steps spanningRecord, qry_bin_at spanningRecord i = k)) :=
  ⟨by decide, by decide, by decide,
    claim_C5 spanningRecord (by decide) (by decide) (by decide)⟩


lemma sum_range_two_mul {M : Type} [AddCommMonoid M] (m : ℕ) (f : ℕ → M) :
    ∑ i ∈ Finset.range (2 * m), f i
      = (∑ i ∈ Finset.range m, f i) + ∑ i ∈ Finset.range m, f (m + i) := by
  have h : 2 * m = m + m := by omega
  rw [h, Finset.sum_range_add]


/-- Total-mass characterization: the count of any tile is the sum of the leaf
counts over the square block of finest-level bins it covers. -/
lemma tileCount_block (leaf : ℕ → ℕ → ℕ) (finest : ℕ) :
    ∀ n l x y, finest - l = n →
      tileCount leaf finest l x y
        = ∑ dx ∈ Finset.range (2 ^ n), ∑ dy ∈ Finset.range (2 ^ n),
            leaf (2 ^ n * x + dx) (2 ^ n * y + dy) := by
  intro n
  induction n with
  | zero =>
    intro l x y hn
    rw [tileCount, if_neg (by omega)]
    simp
  | succ n ih =>
    intro l x y hn
    have hl : l < finest := by omega
    have hn' : finest - (l + 1) = n := by omega
    rw [tileCount, if_pos hl, ih (l + 1) (2 * x) (2 * y) hn',
      ih (l + 1) (2 * x + 1) (2 * y) hn', ih (l + 1) (2 * x) (2 * y + 1) hn',
      ih (l + 1) (2 * x + 1) (2 * y + 1) hn']
    have hpow : 2 ^ (n + 1) = 2 * 2 ^ n := by ring
    rw [hpow, sum_range_two_mul (2 ^ n)
      (fun dx => ∑ dy ∈ Finset.range (2 * 2 ^ n), leaf (2 * 2 ^ n * x + dx) (2 * 2 ^ n * y + dy))]
    have hinner : ∀ a : ℕ,
        (∑ dy ∈ Finset.range (2 * 2 ^ n), leaf a (2 * 2 ^ n * y + dy))
          = (∑ dy ∈ Finset.range (2 ^ n), leaf a (2 ^ n * (2 * y) + dy))
            + ∑ dy ∈ Finset.range (2 ^ n), leaf a (2 ^ n * (2 * y + 1) + dy) := by
      intro a
      rw [sum_range_two_mul (2 ^ n) (fun dy => leaf a (2 * 2 ^ n * y + dy))]
      congr 1
      · refine Finset.sum_congr rfl fun dy _ => ?_
        congr 1
        ring
      · refine Finset.sum_congr rfl fun dy _ => ?_
        congr 1
        ring
    have hsplit₀ : (∑ dx ∈ Finset.range (2 ^ n),
        ∑ dy ∈ Finset.range (2 * 2 ^ n), leaf (2 * 2 ^ n * x + dx) (2 * 2 ^ n * y + dy))
          = (∑ dx ∈ Finset.range (2 ^ n),
              ∑ dy ∈ Finset.range (2 ^ n), leaf (2 ^ n * (2 * x) + dx) (2 ^ n * (2 * y) + dy))
            + ∑ dx ∈ Finset.range (2 ^ n),
                ∑ dy ∈ Finset.range (2 ^ n), leaf (2 ^ n * (2 * x) + dx) (2 ^ n * (2 * y + 1) + dy) := by
      rw [← Finset.sum_add_distrib]
      refine Finset.sum_congr rfl fun dx _ => ?_
      rw [hinner (2 * 2 ^ n * x + dx)]
      have harg : 2 * 2 ^ n * x + dx = 2 ^ n * (2 * x) + dx := by ring
      rw [harg]
    have hsplit₁ : (∑ dx ∈ Finset.range (2 ^ n),
        ∑ dy ∈ Finset.range (2 * 2 ^ n),
          leaf (2 * 2 ^ n * x + (2 ^ n + dx)) (2 * 2 ^ n * y + dy))
          = (∑ dx ∈ Finset.range (2 ^ n),
              ∑ dy ∈ Finset.range (2 ^ n), leaf (2 ^ n * (2 * x + 1) + dx) (2 ^ n * (2 * y) + dy))
            + ∑ dx ∈ Finset.range (2 ^ n),
                ∑ dy ∈ Finset.range (2 ^ n),
                  leaf (2 ^ n * (2 * x + 1) + dx) (2 ^ n * (2 * y + 1) + dy) := by
      rw [← Finset.sum_add_distrib]
      refine Finset.sum_congr rfl fun dx _ => ?_
      rw [hinner (2 * 2 ^ n * x + (2 ^ n + dx))]
      have harg : 2 * 2 ^ n * x + (2 ^ n + dx) = 2 ^ n * (2 * x + 1) + dx := by ring
      rw [harg]
    rw [hsplit₀, hsplit₁]
    ring


lemma half_split (w t u : ℚ) (hw : 0 < w) :
    (u * w ≤ t ∧ t < (u + 1) * w) ↔
      ((2 * u * (w / 2) ≤ t ∧ t < (2 * u + 1) * (w / 2)) ∨
       ((2 * u + 1) * (w / 2) ≤ t ∧ t < (2 * u + 2) * (w / 2))) := by
  constructor
  · rintro ⟨h1, h2⟩
    by_cases hmid : t < (2 * u + 1) * (w / 2)
    · exact Or.inl ⟨by linarith, hmid⟩
    · exact Or.inr ⟨by linarith, by linarith⟩
  · rintro (⟨h1, h2⟩ | ⟨h1, h2⟩) <;> constructor <;> linarith


/-- C6: in the modelled tile pyramid, every non-leaf tile's count is the sum
of the counts of its four children at the next level (mass conservation), the
count equals the total of the finest-level bin counts in its block (so the law
holds for all levels of any build), and the tile's world rectangle is exactly
covered by the union of its four children's rectangles. -/
theorem claim_C6 (leaf : ℕ → ℕ → ℕ) (finest l x y : ℕ) (hl : l < finest)
    (W : ℚ) (hW : 0 < W) :
    tileCount leaf finest l x y
        = tileCount leaf finest (l + 1) (2 * x) (2 * y)
          + tileCount leaf finest (l + 1) (2 * x + 1) (2 * y)
          + tileCount leaf finest (l + 1) (2 * x) (2 * y + 1)
          + tileCount leaf finest (l + 1) (2 * x + 1) (2 * y + 1) ∧
    tileCount leaf finest l x y
        = ∑ dx ∈ Finset.range (2 ^ (finest - l)), ∑ dy ∈ Finset.range (2 ^ (finest - l)),
            leaf (2 ^ (finest - l) * x + dx) (2 ^ (finest - l) * y + dy) ∧
    tileRect W l x y
        = tileRect W (l + 1) (2 * x) (2 * y) ∪ tileRect W (l + 1) (2 * x + 1) (2 * y)
          ∪ tileRect W (l + 1) (2 * x) (2 * y + 1)
          ∪ tileRect W (l + 1) (2 * x + 1) (2 * y + 1) := by
  refine ⟨by rw [tileCount, if_pos hl], tileCount_block leaf finest (finest - l) l x y rfl, ?_⟩
  have hw : (0 : ℚ) < W / 2 ^ l := by positivity
  have hhalf : W / 2 ^ (l + 1) = W / 2 ^ l / 2 := by
    rw [pow_succ]
    ring
  ext p
  simp only [tileRect, Set.mem_union, Set.mem_setOf_eq, hhalf]
  push_cast
  constructor
  · rintro ⟨hx1, hx2, hy1, hy2⟩
    have hxs := (half_split (W / 2 ^ l) p.1 (x : ℚ) hw).mp ⟨hx1, hx2⟩
    have hys := (half_split (W / 2 ^ l) p.2 (y : ℚ) hw).mp ⟨hy1, hy2⟩
    rcases hxs with hx | hx <;> rcases hys with hy | hy
    · exact Or.inl (Or.inl (Or.inl ⟨hx.1, hx.2, hy.1, hy.2⟩))
    · exact Or.inl (Or.inr ⟨hx.1, hx.2, by linarith [hy.1], by linarith [hy.2]⟩)
    · exact Or.inl (Or.inl (Or.inr ⟨by linarith [hx.1], by linarith [hx.2], hy.1, hy.2⟩))
    · exact Or.inr ⟨by linarith [hx.1], by linarith [hx.2], by linarith [hy.1], by linarith [hy.2]⟩
  · intro h
    have hxy : (2 * (x : ℚ) * (W / 2 ^ l / 2) ≤ p.1 ∧
          p.1 < (2 * (x : ℚ) + 1) * (W / 2 ^ l / 2) ∨
        (2 * (x : ℚ) + 1) * (W / 2 ^ l / 2) ≤ p.1 ∧
          p.1 < (2 * (x : ℚ) + 2) * (W / 2 ^ l / 2)) ∧
        (2 * (y : ℚ) * (W / 2 ^ l / 2) ≤ p.2 ∧
          p.2 < (2 * (y : ℚ) + 1) * (W / 2 ^ l / 2) ∨
        (2 * (y : ℚ) + 1) * (W / 2 ^ l / 2) ≤ p.2 ∧
          p.2 < (2 * (y : ℚ) + 2) * (W / 2 ^ l / 2)) := by
      rcases h with ((⟨a1, a2, a3, a4⟩ | ⟨a1, a2, a3, a4⟩) | ⟨a1, a2, a3, a4⟩) | ⟨a1, a2, a3, a4⟩
      · exact ⟨Or.inl ⟨a1, a2⟩, Or.inl ⟨a3, a4⟩⟩
      · exact ⟨Or.inr ⟨by linarith, by linarith⟩, Or.inl ⟨a3, a4⟩⟩
      · exact ⟨Or.inl ⟨a1, a2⟩, Or.inr ⟨by linarith, by linarith⟩⟩
      · exact ⟨Or.inr ⟨by linarith, by linarith⟩, Or.inr ⟨by linarith, by linarith⟩⟩
    obtain ⟨hxs, hys⟩ := hxy
    have hx := (half_split (W / 2 ^ l) p.1 (x : ℚ) hw).mpr hxs
    have hy := (half_split (W / 2 ^ l) p.2 (y : ℚ) hw).mpr hys
    exact ⟨hx.1, hx.2, hy.1, hy.2⟩


/-- Witness for C6: a two-level pyramid over an explicit leaf function. -/
theorem claim_C6_witness :
    0 < 2 ∧ (0 : ℚ) < 4 ∧
    (tileCount (fun a b => a + 2 * b) 2 0 0 0
        = tileCount (fun a b => a + 2 * b) 2 1 0 0 + tileCount (fun a b => a + 2 * b) 2 1 1 0
          + tileCount (fun a b => a + 2 * b) 2 1 0 1 + tileCount (fun a b => a + 2 * b) 2 1 1 1 ∧
      tileCount (fun a b => a + 2 * b) 2 0 0 0
        = ∑ dx ∈ Finset.range (2 ^ (2 - 0)), ∑ dy ∈ Finset.range (2 ^ (2 - 0)),
            (fun a b => a + 2 * b) (2 ^ (2 - 0) * 0 + dx) (2 ^ (2 - 0) * 0 + dy) ∧
      tileRect 4 0 0 0
        = tileRect 4 1 0 0 ∪ tileRect 4 1 1 0 ∪ tileRect 4 1 0 1 ∪ tileRect 4 1 1 1) :=
  ⟨by norm_num, by norm_num,
    claim_C6 (fun a b => a + 2 * b) 2 0 0 0 (by norm_num) 4 (by norm_num)⟩


/-- C7: tier selection is a pure function of zoom and configuration — it does
not depend on the rest of the viewport, repeated identical requests give a
constant tier sequence (no oscillation, no persistent state), a zoom below
the Mid threshold selects Overview and a zoom at-or-above it (below the Deep
threshold) selects Mid. -/
theorem claim_C7 :
    (∀ cfg vp vp' z, prepareRenderTier cfg vp z = prepareRenderTier cfg vp' z) ∧
    (∀ cfg vp z n,
        (List.replicate n (vp, z)).map (fun rq => prepareRenderTier cfg rq.1 rq.2)
          = List.replicate n (prepareRenderTier cfg vp z)) ∧
    (∀ cfg vp z, z < cfg.midThreshold → prepareRenderTier cfg vp z = Tier.overview) ∧
    (∀ cfg vp z, cfg.midThreshold ≤ z → z < cfg.deepThreshold →
        prepareRenderTier cfg vp z = Tier.mid) := by
  refine ⟨fun cfg vp vp' z => rfl, fun cfg vp z n => ?_, fun cfg vp z h => ?_, fun cfg vp z h1 h2 => ?_⟩
  · simp
  · simp [prepareRenderTier, selectTier, if_pos h]
  · simp [prepareRenderTier, selectTier, if_neg (not_lt.mpr h1), if_pos h2]


/-- Witness for C7 at a concrete configuration with zooms just below and just
above the Mid threshold. -/
theorem claim_C7_witness :
    ((1 : ℚ) / 2 < lodConfig0.midThreshold) ∧
    (lodConfig0.midThreshold ≤ 2 ∧ (2 : ℚ) < lodConfig0.deepThreshold) ∧
    prepareRenderTier lodConfig0 renderViewport0 (1 / 2) = Tier.overview ∧
    prepareRenderTier lodConfig0 renderViewport0 2 = Tier.mid :=
  ⟨by norm_num [lodConfig0], ⟨by norm_num [lodConfig0], by norm_num [lodConfig0]⟩,
    claim_C7.2.2.1 lodConfig0 renderViewport0 (1 / 2) (by norm_num [lodConfig0]),
    claim_C7.2.2.2 lodConfig0 renderViewport0 2 (by norm_num [lodConfig0])
      (by norm_num [lodConfig0])⟩


/-- Counterexample to C4: an anchor with `identity = 0.0` is emitted with
alpha `1.0`, exactly like one with `identity = 1.0` — the alpha channel is
not modulated by identity at all (the shader modulates the RGB channels
instead). -/
theorem claim_C4_counterexample :
    (point_vs_color 1 0 255).a = 1 ∧ (point_vs_color 1 1 255).a = 1 ∧
    ¬ (point_vs_color 1 0 255).a = 0 := by
  refine ⟨?_, ?_, ?_⟩ <;> norm_num [point_vs_color, strand_to_color]


/-- C4 (amended): identity modulates the RGB channels, not alpha: each RGB
channel varies linearly from the gray value (identity 0) to the full strand
color (identity 1), scaled by the mapq brightness, while the alpha channel is
constantly `1.0` (the strand color's alpha), unaffected by identity. -/
theorem claim_C4_amended (s : ℤ) (idv : ℚ) (m : ℕ) (h0 : 0 ≤ idv) (h1 : idv ≤ 1) :
    (point_vs_color s idv m).a = 1 ∧
    (point_vs_color s idv m).r
        = (1 - idv) * (point_vs_color s 0 m).r + idv * (point_vs_color s 1 m).r ∧
    (point_vs_color s idv m).g
        = (1 - idv) * (point_vs_color s 0 m).g + idv * (point_vs_color s 1 m).g ∧
    (point_vs_color s idv m).b
        = (1 - idv) * (point_vs_color s 0 m).b + idv * (point_vs_color s 1 m).b ∧
    (point_vs_color s 1 m).r = (strand_to_color s).r * (0.8 + 0.2 * ((m : ℚ) / 255)) ∧
    (point_vs_color s 0 m).r = 0.5 * (0.8 + 0.2 * ((m : ℚ) / 255)) := by
  have ha : (point_vs_color s idv m).a = (strand_to_color s).a := rfl
  have haval : (strand_to_color s).a = 1 := by
    unfold strand_to_color
    by_cases hs1 : s = 1
    · norm_num [hs1]
    · by_cases hs2 : s = -1 <;> norm_num [hs1, hs2]
  have hc : clampQ idv 0 1 = idv := by
    unfold clampQ
    rw [max_eq_left h0, min_eq_left h1]
  have hc0 : clampQ 0 0 1 = 0 := by
    unfold clampQ
    norm_num
  have hc1 : clampQ 1 0 1 = 1 := by
    unfold clampQ
    norm_num
  refine ⟨ha.trans haval, ?_, ?_, ?_, ?_, ?_⟩ <;>
    simp only [point_vs_color, hc, hc0, hc1, mixQ] <;> ring


/-- Witness for C4 (amended) at `identity = 1/2`. -/
theorem claim_C4_amended_witness :
    (0 : ℚ) ≤ 1 / 2 ∧ (1 / 2 : ℚ) ≤ 1 ∧
    ((point_vs_color 1 (1 / 2) 128).a = 1 ∧
      (point_vs_color 1 (1 / 2) 128).r
          = (1 - 1 / 2) * (point_vs_color 1 0 128).r + 1 / 2 * (point_vs_color 1 1 128).r ∧
      (point_vs_color 1 (1 / 2) 128).g
          = (1 - 1 / 2) * (point_vs_color 1 0 128).g + 1 / 2 * (point_vs_color 1 1 128).g ∧
      (point_vs_color 1 (1 / 2) 128).b
          = (1 - 1 / 2) * (point_vs_color 1 0 128).b + 1 / 2 * (point_vs_color 1 1 128).b ∧
      (point_vs_color 1 1 128).r = (strand_to_color 1).r * (0.8 + 0.2 * ((128 : ℚ) / 255)) ∧
      (point_vs_color 1 0 128).r = 0.5 * (0.8 + 0.2 * ((128 : ℚ) / 255))) :=
  ⟨by norm_num, by norm_num, claim_C4_amended 1 (1 / 2) 128 (by norm_num) (by norm_num)⟩


/-- C8 (evidence of the code bug): strand filtering is inverted.  In the
polyline shader, hiding the forward strand (`show_forward = 0`,
`show_reverse = 1`) leaves a forward-strand fragment rendered and discards a
reverse-strand fragment instead (`color.r > 0.7` matches the reverse color
but is guarded by `show_forward`).  In the point shader, hiding the reverse
strand (`show_reverse = 0`, `show_forward = 1`) discards a forward-strand
point and renders a reverse-strand point, because `is_forward` is computed as
`color.b < 0.5` although forward is the high-blue color. -/
theorem claim_C8 :
    polyline_fs_discard (strand_to_color 1) 0 1 = false ∧
    polyline_fs_discard (strand_to_color (-1)) 0 1 = true ∧
    polyline_fs_discard (strand_to_color (-1)) 1 0 = true ∧
    polyline_fs_discard (strand_to_color 1) 1 0 = false ∧
    points_fs_discard (point_vs_color 1 1 255) 1 0 = true ∧
    points_fs_discard (point_vs_color (-1) 1 255) 1 0 = false := by
  refine ⟨?_, ?_, ?_, ?_, ?_, ?_⟩ <;>
    norm_num [polyline_fs_discard, points_fs_discard, point_vs_color, strand_to_color,
      clampQ, mixQ]


lemma clamp_zoom_bounds (z : ℚ) :
    0.01 ≤ max 0.01 (min 100 z) ∧ max 0.01 (min 100 z) ≤ 100 :=
  ⟨le_max_left _ _, max_le (by norm_num) (min_le_left _ _)⟩


/-- C9: both zoom-changing operations (keyboard zoom by a factor and
mouse-wheel zoom) clamp the new zoom into `[0.01, 100]`, and no other event
changes the zoom, so every reachable application state has
`viewport.zoom ∈ [0.01, 100]`. -/
theorem claim_C9 (s : AppState) (h : Reachable s) :
    0.01 ≤ s.viewport.zoom ∧ s.viewport.zoom ≤ 100 := by
  induction h with
  | init => norm_num [initialState]
  | next e hr ih =>
    rename_i t
    cases e with
    | zoomKey f => exact clamp_zoom_bounds _
    | wheel d => exact clamp_zoom_bounds _
    | pan dx dy => exact ih
    | drag dx dy => exact ih
    | resize w h => exact ih
    | minimapJump rx ry => exact ih
    | swap => exact ih
    | reverseY => exact ih
    | strandFilterSet f => exact ih
    | resetView => norm_num [step, handleResetView]
    | themeSet t => exact ih
    | statsUpdate st => exact ih
    | loadingSet b e => exact ih


/-- Witness for C9 at the initial state. -/
theorem claim_C9_witness :
    Reachable initialState ∧
    (0.01 ≤ initialState.viewport.zoom ∧ initialState.viewport.zoom ≤ 100) :=
  ⟨Reachable.init, claim_C9 initialState Reachable.init⟩


/-- C10: resetting the view sets `viewport.x = 0`, `viewport.y = 0`,
`viewport.zoom = 1` and leaves every other part of the application state
unchanged: the viewport's width and height, the whole plot configuration
(strand visibility, axis swap, theme), the stats, the loading flag, the error
and the minimap visibility. -/
theorem claim_C10 (s : AppState) :
    (handleResetView s).viewport.x = 0 ∧
    (handleResetView s).viewport.y = 0 ∧
    (handleResetView s).viewport.zoom = 1 ∧
    (handleResetView s).viewport.width = s.viewport.width ∧
    (handleResetView s).viewport.height = s.viewport.height ∧
    (handleResetView s).plotConfig = s.plotConfig ∧
    (handleResetView s).plotStats = s.plotStats ∧
    (handleResetView s).isLoading = s.isLoading ∧
    (handleResetView s).error = s.error ∧
    (handleResetView s).showMiniMap = s.showMiniMap :=
  ⟨rfl, rfl, rfl, rfl, rfl, rfl, rfl, rfl, rfl, rfl⟩


end DotX
